import Mathlib

/-!
Verification of the UDP file-share sliding-window protocol
(`File Share/UDP/sender.py`, `receiver.py`, `client.py`).

Bytes are modelled as `List Nat` (each element < 256 in practice).
`int.to_bytes(k, "big")` / `int.from_bytes(_, "big")` become `toBytesBE` /
`fromBytesBE`; `hashlib.md5(..).hexdigest()` is implemented below following
RFC 1321 (`md5Digest`, rendered in lowercase hex by `checksum`).
-/

namespace Redes

abbrev Bytes := List Nat

/-- Model of Python `n.to_bytes(k, "big")` (valid for `n < 256 ^ k`). -/
def toBytesBE : Nat → Nat → Bytes
  | 0, _ => []
  | k + 1, n => toBytesBE k (n / 256) ++ [n % 256]

/-- Model of Python `int.from_bytes(bs, "big")`. -/
def fromBytesBE (bs : Bytes) : Nat :=
  bs.foldl (fun acc b => acc * 256 + b) 0

/-- Little-endian byte rendering of a natural (used inside MD5). -/
def toBytesLE : Nat → Nat → Bytes
  | 0, _ => []
  | k + 1, n => n % 256 :: toBytesLE k (n / 256)

/-- Little-endian byte decoding (used inside MD5). -/
def fromBytesLE (bs : Bytes) : Nat :=
  bs.foldr (fun b acc => acc * 256 + b) 0

/-! MD5 (RFC 1321), as used by `hashlib.md5(data).hexdigest()`. -/

/-- Table of the 64 MD5 additive constants `K[i] = floor(abs(sin(i+1)) * 2^32)`. -/
def md5K : List Nat :=
  [0xd76aa478, 0xe8c7b756, 0x242070db, 0xc1bdceee,
   0xf57c0faf, 0x4787c62a, 0xa8304613, 0xfd469501,
   0x698098d8, 0x8b44f7af, 0xffff5bb1, 0x895cd7be,
   0x6b901122, 0xfd987193, 0xa679438e, 0x49b40821,
   0xf61e2562, 0xc040b340, 0x265e5a51, 0xe9b6c7aa,
   0xd62f105d, 0x02441453, 0xd8a1e681, 0xe7d3fbc8,
   0x21e1cde6, 0xc33707d6, 0xf4d50d87, 0x455a14ed,
   0xa9e3e905, 0xfcefa3f8, 0x676f02d9, 0x8d2a4c8a,
   0xfffa3942, 0x8771f681, 0x6d9d6122, 0xfde5380c,
   0xa4beea44, 0x4bdecfa9, 0xf6bb4b60, 0xbebfbc70,
   0x289b7ec6, 0xeaa127fa, 0xd4ef3085, 0x04881d05,
   0xd9d4d039, 0xe6db99e5, 0x1fa27cf8, 0xc4ac5665,
   0xf4292244, 0x432aff97, 0xab9423a7, 0xfc93a039,
   0x655b59c3, 0x8f0ccc92, 0xffeff47d, 0x85845dd1,
   0x6fa87e4f, 0xfe2ce6e0, 0xa3014314, 0x4e0811a1,
   0xf7537e82, 0xbd3af235, 0x2ad7d2bb, 0xeb86d391]

/-- Table of the 64 MD5 per-round left-rotation amounts. -/
def md5S : List Nat :=
  [7, 12, 17, 22, 7, 12, 17, 22, 7, 12, 17, 22, 7, 12, 17, 22,
   5, 9, 14, 20, 5, 9, 14, 20, 5, 9, 14, 20, 5, 9, 14, 20,
   4, 11, 16, 23, 4, 11, 16, 23, 4, 11, 16, 23, 4, 11, 16, 23,
   6, 10, 15, 21, 6, 10, 15, 21, 6, 10, 15, 21, 6, 10, 15, 21]

/-- Left rotation of a 32-bit word by `c` bits. -/
def rotl32 (x c : Nat) : Nat :=
  ((x <<< c) % 2 ^ 32) ||| (x >>> (32 - c))

/-- Round function of MD5 (F, G, H, I depending on the round index). -/
def md5F (i b c d : Nat) : Nat :=
  if i < 16 then (b &&& c) ||| ((b ^^^ 0xffffffff) &&& d)
  else if i < 32 then (d &&& b) ||| ((d ^^^ 0xffffffff) &&& c)
  else if i < 48 then b ^^^ c ^^^ d
  else c ^^^ (b ||| (d ^^^ 0xffffffff))

/-- Message-word index used at round `i`. -/
def md5G (i : Nat) : Nat :=
  if i < 16 then i
  else if i < 32 then (5 * i + 1) % 16
  else if i < 48 then (3 * i + 5) % 16
  else (7 * i) % 16

/-- The `g`-th 32-bit little-endian word of a 64-byte chunk. -/
def md5Word (chunk : Bytes) (g : Nat) : Nat :=
  fromBytesLE ((chunk.drop (4 * g)).take 4)

/-- One MD5 round, transforming the running `(a, b, c, d)` register tuple. -/
def md5Round (chunk : Bytes) (st : Nat × Nat × Nat × Nat) (i : Nat) :
    Nat × Nat × Nat × Nat :=
  let f := (md5F i st.2.1 st.2.2.1 st.2.2.2 + st.1 + md5K.getD i 0 +
    md5Word chunk (md5G i)) % 2 ^ 32
  (st.2.2.2, (st.2.1 + rotl32 f (md5S.getD i 0)) % 2 ^ 32, st.2.1, st.2.2.1)

/-- Absorb one 64-byte chunk into the MD5 state. -/
def md5Chunk (h : Nat × Nat × Nat × Nat) (chunk : Bytes) : Nat × Nat × Nat × Nat :=
  let r := (List.range 64).foldl (md5Round chunk) h
  ((h.1 + r.1) % 2 ^ 32, (h.2.1 + r.2.1) % 2 ^ 32,
   (h.2.2.1 + r.2.2.1) % 2 ^ 32, (h.2.2.2 + r.2.2.2) % 2 ^ 32)

/-- MD5 padding: `0x80`, zeros to 56 mod 64, then the bit length in 8 LE bytes. -/
def md5Pad (msg : Bytes) : Bytes :=
  msg ++ [0x80] ++ List.replicate ((119 - msg.length % 64) % 64) 0 ++
    toBytesLE 8 (msg.length * 8)

/-- Split a padded message into its successive 64-byte chunks. -/
def md5Chunks (padded : Bytes) : List Bytes :=
  (List.range (padded.length / 64)).map (fun i => (padded.drop (64 * i)).take 64)

/-- The 16-byte MD5 digest of a byte sequence. -/
def md5Digest (msg : Bytes) : Bytes :=
  let h := (md5Chunks (md5Pad msg)).foldl md5Chunk
    (0x67452301, 0xefcdab89, 0x98badcfe, 0x10325476)
  toBytesLE 4 h.1 ++ toBytesLE 4 h.2.1 ++ toBytesLE 4 h.2.2.1 ++ toBytesLE 4 h.2.2.2

/-- ASCII code of the lowercase hexadecimal digit for `v < 16`. -/
def hexChar (v : Nat) : Nat :=
  if v < 10 then 48 + v else 87 + v

/-- Lowercase-hex rendering of a byte sequence, as ASCII codes. -/
def toHex (bs : Bytes) : Bytes :=
  bs.foldr (fun b acc => hexChar (b / 16) :: hexChar (b % 16) :: acc) []

/-- Model of `Client.checksum` (`client.py` lines 45-52): the ASCII codes of
`hashlib.md5(data).hexdigest()`. -/
def checksum (data : Bytes) : Bytes :=
  toHex (md5Digest data)

/-! Packet codec. -/

/-- ASCII codes of the string `"ACK"`. -/
def ackBytes : Bytes := [65, 67, 75]

/-- ASCII codes of the string `"NACK"`. -/
def nackBytes : Bytes := [78, 65, 67, 75]

/-- Model of `Sender.create_packet`'s wire content (`sender.py` lines 45-58):
`packet_index.to_bytes(8, "big") + size.to_bytes(8, "big") +
checksum.encode("ascii")[0:32] + data`. -/
def createPacketContent (packet_index : Nat) (data : Bytes) : Bytes :=
  toBytesBE 8 packet_index ++ toBytesBE 8 data.length ++
    (checksum data).take 32 ++ data

/-- Decoded fields of a data packet, as produced by `Receiver.receive_packet`. -/
structure Decoded where
  index : Nat
  size : Nat
  chk : Bytes
  data : Bytes
deriving DecidableEq

/-- Model of `Receiver.receive_packet` (`receiver.py` lines 49-77): the socket
reads at most `8 + 8 + 32 + packet_size` bytes; an empty read yields no packet;
otherwise the fields are sliced out of the datagram. -/
def receivePacket (packet_size : Nat) (wire : Bytes) : Option Decoded :=
  let data := wire.take (8 + 8 + 32 + packet_size)
  if data = [] then none
  else some
    { index := fromBytesBE (data.take 8)
      size := fromBytesBE ((data.drop 8).take 8)
      chk := (data.drop 16).take 32
      data := data.drop 48 }

/-- Model of `Receiver.send_packet` (`receiver.py` lines 26-34): a control
packet is `current_package.to_bytes(8, "big") + message.encode("ascii")`. -/
def controlPacket (index : Nat) (status : Bytes) : Bytes :=
  toBytesBE 8 index ++ status

/-- Model of the sender's control-packet decoding (`sender.py` lines 126-127):
`int.from_bytes(message[0:8], "big")` and `message[8:]`. -/
def decodeControl (m : Bytes) : Nat × Bytes :=
  (fromBytesBE (m.take 8), m.drop 8)

/-! Sender state machine (`sender.py`). -/

/-- Model of the `Packet` dataclass (`sender.py` lines 12-22). -/
structure Packet where
  content : Bytes
  is_awaiting_ack : Bool
deriving DecidableEq

/-- Sender session state (`Sender.__init__`, `sender.py` lines 30-43).
Python's `window` deque holds references to the very same `Packet` objects
stored in `file_data`; to capture that aliasing (mutating a popped packet's
flag mutates the `file_data` entry) the window is modelled as the list of
`file_data` indices of those objects, front of the deque first. -/
structure SenderState where
  file_data : List Packet
  window : List Nat
  current_package : Nat
  window_size : Nat
deriving DecidableEq

/-- Replace the element at position `i` by `f` of it (no-op out of range). -/
def modifyAt (f : Packet → Packet) : List Packet → Nat → List Packet
  | [], _ => []
  | p :: ps, 0 => f p :: ps
  | p :: ps, i + 1 => p :: modifyAt f ps i

/-- Mark a packet as awaiting confirmation (`send_packet`, line 93). -/
def setAckFn (p : Packet) : Packet :=
  { p with is_awaiting_ack := true }

/-- Clear a packet's awaiting-confirmation flag (`resend`, line 109). -/
def clearAckFn (p : Packet) : Packet :=
  { p with is_awaiting_ack := false }

/-- The `is_awaiting_ack` flag of the packet object at index `j` (false out of
range). -/
def awaitingAt (fd : List Packet) (j : Nat) : Bool :=
  match fd.get? j with
  | some p => p.is_awaiting_ack
  | none => false

/-- The wire content of the packet object at index `j` (empty out of range). -/
def contentAt (fd : List Packet) (j : Nat) : Bytes :=
  match fd.get? j with
  | some p => p.content
  | none => []

/-- Number of packets `file_data[i : i + window_size]` yields, i.e. the length
of the Python slice iterated by `Sender.resend`. -/
def sliceLen (st : SenderState) (i : Nat) : Nat :=
  min st.window_size (st.file_data.length - i)

/-- One iteration of the loop in `Sender.resend` (`sender.py` lines 104-110):
`old_packet = window.popleft(); old_packet.is_awaiting_ack = False;
window.append(packet)` where `packet` is `file_data[j]`. Python raises
`IndexError` when popping an empty deque; that situation is modelled as a
no-op and proved unreachable (claim about `resend` safety). -/
def resendStep (st : SenderState) (j : Nat) : SenderState :=
  match st.window with
  | [] => st
  | old :: rest =>
    { st with
      file_data := modifyAt clearAckFn st.file_data old
      window := rest ++ [j] }

/-- Model of `Sender.resend` (`sender.py` lines 99-110). -/
def resend (st : SenderState) (i : Nat) : SenderState :=
  (List.range' i (sliceLen st i)).foldl resendStep st

/-- What the sender receives while waiting for a control packet: a socket
timeout, or a datagram. -/
inductive RecvEvent where
  | timeout
  | msg (m : Bytes)
deriving DecidableEq

/-- Model of `Sender.check_current_package_status` (`sender.py` lines
112-158). Returns the new state and the function's boolean result (`False`
makes the caller count one failed package). -/
def checkStatus (st : SenderState) : RecvEvent → SenderState × Bool
  | .timeout => (resend st st.current_package, true)
  | .msg m =>
    if m = [] then (st, false)
    else
      let idx := fromBytesBE (m.take 8)
      let status := m.drop 8
      if st.current_package < idx then (resend st idx, false)
      else if idx < st.current_package ∨ status = nackBytes then (st, false)
      else
        let next := st.current_package + st.window_size
        let w1 := if next < st.file_data.length then st.window ++ [next]
          else st.window
        ({ st with
            window := w1.tail
            current_package := st.current_package + 1 }, true)

/-- Model of the transmission pass in `Sender.handle_connection` (lines
186-193): packets are visited in window order; each pending one is sent and
marked `is_awaiting_ack`; a transport failure stops the pass. `k` is the
number of window elements visited before the pass stopped (the failing send
leaves its packet unmarked, so it is not among the `k`). -/
def transmitStep (st : SenderState) (k : Nat) : SenderState :=
  { st with file_data := (st.window.take k).foldl (modifyAt setAckFn) st.file_data }

/-- Wire contents actually written to the socket by one transmission pass:
the pending (not awaiting-ack) packets among the first `k` window elements. -/
def pendingSends (st : SenderState) (k : Nat) : List Bytes :=
  ((st.window.take k).filter (fun j => !awaitingAt st.file_data j)).map
    (fun j => contentAt st.file_data j)

/-- Model of `Sender.create_packet` returning the dataclass (line 58). -/
def createPacket (packet_index : Nat) (data : Bytes) : Packet :=
  { content := createPacketContent packet_index data, is_awaiting_ack := false }

/-- Model of `Sender.read_file` (`sender.py` lines 66-79) applied to the
initial state: every chunk becomes a packet in `file_data`, and the first
`window_size` of them are also appended to the window. -/
def readFile (chunks : List Bytes) (ws : Nat) : SenderState :=
  { file_data := chunks.enum.map (fun p => createPacket p.1 p.2)
    window := List.range (min ws chunks.length)
    current_package := 0
    window_size := ws }

/-- One step of the sender's send loop (`handle_connection` lines 185-200):
a transmission pass, or (while the window is non-empty, per the loop guard)
one call to `check_current_package_status` driven by a receive event. -/
inductive SenderStep : SenderState → SenderState → Prop where
  | transmit (st : SenderState) (k : Nat) : SenderStep st (transmitStep st k)
  | check (st : SenderState) (e : RecvEvent) (h : st.window ≠ []) :
      SenderStep st (checkStatus st e).1

/-- Sender states reachable from `read_file`'s result by send-loop steps. -/
inductive Reachable (chunks : List Bytes) (ws : Nat) : SenderState → Prop where
  | init : Reachable chunks ws (readFile chunks ws)
  | step {st st' : SenderState} : Reachable chunks ws st → SenderStep st st' →
      Reachable chunks ws st'

/-- Model of the sender's send loop (`handle_connection` lines 185-200),
driven by a script of (transmission-pass extent, receive event) pairs.
Returns the list of wire packets written to the socket and, when the loop
exits (window empty), the final state; `none` when the script runs out with
the window still non-empty. -/
def senderLoop : SenderState → List (Nat × RecvEvent) → List Bytes × Option SenderState
  | st, [] => ([], if st.window = [] then some st else none)
  | st, (k, e) :: rest =>
    if st.window = [] then ([], some st)
    else
      let out := pendingSends st k
      let st1 := transmitStep st k
      let st2 := (checkStatus st1 e).1
      let r := senderLoop st2 rest
      (out ++ r.1, r.2)

/-! Receiver state machine (`receiver.py`). -/

/-- Receiver session state (`Receiver.__init__`, `receiver.py` lines 15-24):
the ordered payload buffer, its byte total, and the next expected index. -/
structure ReceiverState where
  buffer : List Bytes
  buffer_size : Nat
  current_package : Nat
deriving DecidableEq

/-- Model of the loop in `Receiver.check_package` lines 99-102: starting from
`current_package = idx`, send `diff` ACKs, incrementing `current_package`
after each. Returns the final `current_package` and the control packets
sent, in order. -/
def ackLoop : Nat → Nat → Nat × List Bytes
  | c, 0 => (c, [])
  | c, diff + 1 =>
    let r := ackLoop (c + 1) diff
    (r.1, controlPacket c ackBytes :: r.2)

/-- Model of `Receiver.check_package` (`receiver.py` lines 79-132) applied to
the result of `receive_packet`. Returns the new state, the control packets
written to the socket, and the function's boolean result. -/
def checkPackage (st : ReceiverState) : Option Decoded → ReceiverState × List Bytes × Bool
  | none => (st, [controlPacket st.current_package nackBytes], false)
  | some d =>
    if d.index < st.current_package then
      let r := ackLoop d.index (st.current_package - d.index)
      ({ st with current_package := r.1 }, r.2, false)
    else if st.current_package < d.index then
      (st, [controlPacket st.current_package nackBytes], false)
    else if d.data.length ≠ d.size ∨ checksum d.data ≠ d.chk then
      (st, [controlPacket st.current_package nackBytes], false)
    else (st, [], true)

/-- One iteration of the receive loop in `Receiver.handle_connection`
(`receiver.py` lines 155-168): validate the packet; on failure count one
failed package; on success send `ACK(current_package)`, append the payload,
add the packet's size field to `buffer_size` and advance `current_package`.
Returns the new state, the control packets sent, and whether the packet was
accepted. -/
def handleIteration (st : ReceiverState) (pkt : Option Decoded) :
    ReceiverState × List Bytes × Bool :=
  let r := checkPackage st pkt
  match pkt with
  | some d =>
    if r.2.2 then
      ({ buffer := r.1.buffer ++ [d.data]
         buffer_size := r.1.buffer_size + d.size
         current_package := r.1.current_package + 1 },
       r.2.1 ++ [controlPacket r.1.current_package ackBytes], true)
    else (r.1, r.2.1, false)
  | none => (r.1, r.2.1, false)

/-- Model of the receive loop of `Receiver.handle_connection` (`receiver.py`
lines 155-171), driven by a script of incoming packets: the loop runs while
`buffer_size < file_size`; on exit the buffer is joined and flushed. Returns
`none` when the script is exhausted before completion. -/
def receiveLoop (file_size : Nat) : ReceiverState → List (Option Decoded) →
    Option (ReceiverState × Bytes)
  | st, [] =>
    if file_size ≤ st.buffer_size then some (st, st.buffer.flatten) else none
  | st, p :: rest =>
    if file_size ≤ st.buffer_size then some (st, st.buffer.flatten)
    else receiveLoop file_size (handleIteration st p).1 rest

/-! Well-formedness invariant of reachable sender states. -/

/-- Structural invariant of a sender session over file `chunks` with window
size `ws`: the packet store never changes length nor contents (only the
awaiting-ack flags mutate), the window always holds exactly
`min ws (number of packets - current_package)` object references, and every
reference is a valid `file_data` index. -/
def WF (chunks : List Bytes) (ws : Nat) (st : SenderState) : Prop :=
  st.file_data.length = chunks.length ∧
  st.window_size = ws ∧
  st.window.length = min ws (chunks.length - st.current_package) ∧
  (∀ j ∈ st.window, j < chunks.length) ∧
  (∀ j, contentAt st.file_data j = contentAt (readFile chunks ws).file_data j)

/-! Concrete session fragments used by the counterexamples and witnesses. -/

/-- A three-chunk file used to build concrete sender sessions. -/
def exChunks : List Bytes := [[1], [2], [3]]

/-- Initial sender state: three one-byte chunks, window size 2. -/
def exSt0 : SenderState := readFile exChunks 2

/-- After one full transmission pass: packets 0 and 1 are awaiting ack. -/
def exSt1 : SenderState := transmitStep exSt0 2

/-- After `ACK(0)` is handled: base advances to 1, window holds packets 1, 2
(packet 1 still awaiting ack, packet 2 pending). -/
def exSt2 : SenderState :=
  (checkStatus exSt1 (RecvEvent.msg (toBytesBE 8 0 ++ ackBytes))).1

/-- Fresh receiver state. -/
def exRecv0 : ReceiverState := ⟨[], 0, 0⟩

/-- A valid decoded data packet with index 0 and payload `[42]`. -/
def exDecoded0 : Decoded := ⟨0, 1, checksum [42], [42]⟩

/-- Receiver state after accepting `exDecoded0`: one payload buffered,
`current_package = 1`. -/
def exRecv1 : ReceiverState := (handleIteration exRecv0 (some exDecoded0)).1

/-- A complete lossless two-packet sender session (window size 1): both data
packets are acknowledged in order and the loop exits with an empty window. -/
def exRun : List Bytes × Option SenderState :=
  senderLoop (readFile [[5], [6]] 1)
    [(1, RecvEvent.msg (toBytesBE 8 0 ++ ackBytes)),
     (1, RecvEvent.msg (toBytesBE 8 1 ++ ackBytes))]

/-! Lemmas about the byte encoders and the checksum. -/

theorem toBytesBE_length (k n : Nat) : (toBytesBE k n).length = k := by
  induction k generalizing n with
  | zero => rfl
  | succ k ih => simp [toBytesBE, ih]

theorem fromBytesBE_append_singleton (bs : Bytes) (b : Nat) :
    fromBytesBE (bs ++ [b]) = fromBytesBE bs * 256 + b := by
  simp [fromBytesBE, List.foldl_append]

theorem fromBytesBE_toBytesBE (k n : Nat) (h : n < 256 ^ k) :
    fromBytesBE (toBytesBE k n) = n := by
  induction k generalizing n with
  | zero =>
    simp [Nat.pow_zero] at h
    simp [toBytesBE, fromBytesBE]
    omega
  | succ k ih =>
    have hdiv : n / 256 < 256 ^ k := by
      rw [Nat.div_lt_iff_lt_mul (by norm_num)]
      calc n < 256 ^ (k + 1) := h
        _ = 256 ^ k * 256 := by ring
    rw [toBytesBE, fromBytesBE_append_singleton, ih _ hdiv]
    omega

theorem toBytesLE_length (k n : Nat) : (toBytesLE k n).length = k := by
  induction k generalizing n with
  | zero => rfl
  | succ k ih => simp [toBytesLE, ih]

theorem md5Digest_length (msg : Bytes) : (md5Digest msg).length = 16 := by
  simp [md5Digest, toBytesLE_length]

theorem toHex_length (bs : Bytes) : (toHex bs).length = 2 * bs.length := by
  induction bs with
  | nil => rfl
  | cons b bs ih => simp [toHex] at ih ⊢; omega

theorem checksum_length (data : Bytes) : (checksum data).length = 32 := by
  simp [checksum, toHex_length, md5Digest_length]

/-! Helper lemmas about `modifyAt`, `awaitingAt` and `contentAt`. -/

theorem modifyAt_length (f : Packet → Packet) (l : List Packet) (i : Nat) :
    (modifyAt f l i).length = l.length := by
  induction l generalizing i with
  | nil => rfl
  | cons p ps ih =>
    cases i with
    | zero => rfl
    | succ i => simp [modifyAt, ih]

theorem get?_modifyAt (f : Packet → Packet) (l : List Packet) (i j : Nat) :
    (modifyAt f l i).get? j = if i = j then (l.get? j).map f else l.get? j := by
  induction l generalizing i j with
  | nil => simp [modifyAt]
  | cons p ps ih =>
    cases i with
    | zero =>
      cases j with
      | zero => simp [modifyAt]
      | succ j => simp [modifyAt]
    | succ i =>
      cases j with
      | zero => simp [modifyAt]
      | succ j =>
        simp only [modifyAt, List.get?_cons_succ, ih]
        by_cases h : i = j <;> simp [h]

theorem contentAt_modifyAt (f : Packet → Packet)
    (hf : ∀ p, (f p).content = p.content) (l : List Packet) (i j : Nat) :
    contentAt (modifyAt f l i) j = contentAt l j := by
  unfold contentAt
  rw [get?_modifyAt]
  by_cases h : i = j
  · simp only [h, if_pos rfl]
    cases l.get? j with
    | none => rfl
    | some p => simp [hf]
  · simp [h]

theorem awaitingAt_modifyAt_clear (l : List Packet) (i j : Nat) :
    awaitingAt (modifyAt clearAckFn l i) j =
      if i = j ∧ j < l.length then false else awaitingAt l j := by
  unfold awaitingAt
  rw [get?_modifyAt]
  by_cases h : i = j
  · subst h
    by_cases hj : i < l.length
    · have hp : l.get? i = some (l.get ⟨i, hj⟩) := List.get?_eq_get hj
      simp [hp, clearAckFn, hj]
    · have hp : l[i]? = none := List.getElem?_eq_none (by omega)
      simp [hp, hj]
  · simp [h]

/-- Clearing the flags of a list of positions clears every listed in-range
position and leaves all other positions untouched. -/
theorem awaitingAt_clearFold (js : List Nat) (l : List Packet) (j : Nat) :
    awaitingAt (js.foldl (modifyAt clearAckFn) l) j =
      if j ∈ js ∧ j < l.length then false else awaitingAt l j := by
  induction js generalizing l with
  | nil => simp
  | cons a js ih =>
    simp only [List.foldl_cons, ih, modifyAt_length, awaitingAt_modifyAt_clear]
    by_cases hmem : j ∈ js
    · by_cases hlt : j < l.length <;> simp [hmem, hlt]
    · by_cases ha : a = j
      · subst ha
        by_cases hlt : a < l.length <;> simp [hmem, hlt]
      · simp [hmem, Ne.symm ha, ha]

theorem clearFold_length (js : List Nat) (l : List Packet) :
    (js.foldl (modifyAt clearAckFn) l).length = l.length := by
  induction js generalizing l with
  | nil => rfl
  | cons a js ih => simp [ih, modifyAt_length]

theorem contentAt_clearFold (js : List Nat) (l : List Packet) (j : Nat) :
    contentAt (js.foldl (modifyAt clearAckFn) l) j = contentAt l j := by
  induction js generalizing l with
  | nil => rfl
  | cons a js ih =>
    simp only [List.foldl_cons, ih,
      contentAt_modifyAt clearAckFn (fun p => rfl)]

theorem setFold_length (js : List Nat) (l : List Packet) :
    (js.foldl (modifyAt setAckFn) l).length = l.length := by
  induction js generalizing l with
  | nil => rfl
  | cons a js ih => simp [ih, modifyAt_length]

theorem contentAt_setFold (js : List Nat) (l : List Packet) (j : Nat) :
    contentAt (js.foldl (modifyAt setAckFn) l) j = contentAt l j := by
  induction js generalizing l with
  | nil => rfl
  | cons a js ih =>
    simp only [List.foldl_cons, ih,
      contentAt_modifyAt setAckFn (fun p => rfl)]

/-! Unrolling `Sender.resend`: iterating the pop/clear/append body over a list
of slice indices whose length does not exceed the window's pops exactly the
first `js.length` window elements (clearing their flags) and appends the
slice indices at the tail. -/

theorem foldl_resendStep (js : List Nat) (st : SenderState)
    (h : js.length ≤ st.window.length) :
    js.foldl resendStep st =
      { st with
        window := st.window.drop js.length ++ js
        file_data :=
          (st.window.take js.length).foldl (modifyAt clearAckFn) st.file_data } := by
  induction js generalizing st with
  | nil => simp
  | cons j rest ih =>
    cases hw : st.window with
    | nil => rw [hw] at h; simp at h
    | cons a w' =>
      have hrest : rest.length ≤ w'.length := by
        rw [hw] at h; simp at h; omega
      have hstep : resendStep st j =
          { st with
            file_data := modifyAt clearAckFn st.file_data a
            window := w' ++ [j] } := by
        unfold resendStep; rw [hw]
      have hdrop : (w' ++ [j]).drop rest.length = w'.drop rest.length ++ [j] := by
        rw [List.drop_append_eq_append_drop, Nat.sub_eq_zero_of_le hrest,
          List.drop_zero]
      have htake : (w' ++ [j]).take rest.length = w'.take rest.length := by
        rw [List.take_append_eq_append_take, Nat.sub_eq_zero_of_le hrest,
          List.take_zero, List.append_nil]
      rw [List.foldl_cons, hstep, ih _ (by simpa using Nat.le_succ_of_le hrest)]
      simp only [hdrop, htake, hw, List.length_cons, List.drop_succ_cons,
        List.take_succ_cons, List.foldl_cons, List.append_assoc,
        List.singleton_append]

theorem resend_eq (st : SenderState) (i : Nat)
    (h : sliceLen st i ≤ st.window.length) :
    resend st i =
      { st with
        window := st.window.drop (sliceLen st i) ++ List.range' i (sliceLen st i)
        file_data := (st.window.take (sliceLen st i)).foldl
          (modifyAt clearAckFn) st.file_data } := by
  unfold resend
  rw [foldl_resendStep _ _ (by simpa using h)]
  simp

theorem wf_readFile (chunks : List Bytes) (ws : Nat) :
    WF chunks ws (readFile chunks ws) := by
  refine ⟨?_, rfl, ?_, ?_, fun j => rfl⟩
  · simp [readFile]
  · simp [readFile]
  · intro j hj
    simp [readFile] at hj
    omega

theorem wf_sliceLen (chunks : List Bytes) (ws : Nat) (st : SenderState)
    (hwf : WF chunks ws st) (i : Nat) :
    sliceLen st i = min ws (chunks.length - i) := by
  obtain ⟨h1, h2, _, _, _⟩ := hwf
  simp [sliceLen, h1, h2]

theorem wf_resend (chunks : List Bytes) (ws : Nat) (st : SenderState)
    (hwf : WF chunks ws st) (i : Nat) (hi : st.current_package ≤ i) :
    WF chunks ws (resend st i) := by
  obtain ⟨h1, h2, h3, h4, h5⟩ := hwf
  have hslice : sliceLen st i = min ws (chunks.length - i) :=
    wf_sliceLen chunks ws st ⟨h1, h2, h3, h4, h5⟩ i
  have hle : sliceLen st i ≤ st.window.length := by
    rw [hslice, h3]; omega
  rw [resend_eq st i hle]
  refine ⟨?_, h2, ?_, ?_, ?_⟩
  · simpa [clearFold_length] using h1
  · simp only [List.length_append, List.length_drop, List.length_range']
    rw [h3, hslice]
    omega
  · intro j hj
    rcases List.mem_append.1 hj with hj | hj
    · exact h4 j (List.drop_subset _ _ hj)
    · rw [List.mem_range'_1] at hj
      rw [hslice] at hj
      omega
  · intro j
    rw [contentAt_clearFold]
    exact h5 j

theorem wf_transmitStep (chunks : List Bytes) (ws : Nat) (st : SenderState)
    (hwf : WF chunks ws st) (k : Nat) :
    WF chunks ws (transmitStep st k) := by
  obtain ⟨h1, h2, h3, h4, h5⟩ := hwf
  refine ⟨?_, h2, h3, h4, ?_⟩
  · simpa [transmitStep, setFold_length] using h1
  · intro j
    simp only [transmitStep]
    rw [contentAt_setFold]
    exact h5 j

theorem wf_checkStatus (chunks : List Bytes) (ws : Nat) (st : SenderState)
    (hwf : WF chunks ws st) (hw : st.window ≠ []) (e : RecvEvent) :
    WF chunks ws (checkStatus st e).1 := by
  cases e with
  | timeout => exact wf_resend chunks ws st hwf st.current_package le_rfl
  | msg m =>
    obtain ⟨h1, h2, h3, h4, h5⟩ := hwf
    simp only [checkStatus]
    have hwlen : 0 < st.window.length := List.length_pos.2 hw
    split_ifs with hm hgt hlt hnext
    · exact ⟨h1, h2, h3, h4, h5⟩
    · exact wf_resend chunks ws st ⟨h1, h2, h3, h4, h5⟩ _ (le_of_lt hgt)
    · exact ⟨h1, h2, h3, h4, h5⟩
    · refine ⟨h1, h2, ?_, ?_, h5⟩
      · simp only [List.length_tail, List.length_append, List.length_cons,
          List.length_nil]
        rw [h3] at hwlen ⊢
        rw [h1, h2] at hnext
        omega
      · intro j hj
        have := List.tail_subset _ hj
        rcases List.mem_append.1 this with hmem | hmem
        · exact h4 j hmem
        · simp at hmem
          rw [h1] at hnext
          omega
    · refine ⟨h1, h2, ?_, ?_, h5⟩
      · simp only [List.length_tail]
        rw [h3] at hwlen ⊢
        rw [h1, h2] at hnext
        omega
      · intro j hj
        exact h4 j (List.tail_subset _ hj)

theorem wf_step (chunks : List Bytes) (ws : Nat) (st st' : SenderState)
    (hwf : WF chunks ws st) (hs : SenderStep st st') : WF chunks ws st' := by
  cases hs with
  | transmit k => exact wf_transmitStep chunks ws st hwf k
  | check e h => exact wf_checkStatus chunks ws st hwf h e

/-- Every reachable sender state is well-formed: the central invariant behind
the window-bound, timeout-reset and resend-safety claims. -/
theorem reachable_wf (chunks : List Bytes) (ws : Nat) (st : SenderState)
    (hr : Reachable chunks ws st) : WF chunks ws st := by
  induction hr with
  | init => exact wf_readFile chunks ws
  | step _ hs ih => exact wf_step chunks ws _ _ ih hs

/-! Lemmas about control-message parsing in the sender. -/

theorem take8_of_append (idx : Nat) (s : Bytes) :
    (toBytesBE 8 idx ++ s).take 8 = toBytesBE 8 idx := by
  rw [List.take_append_eq_append_take, toBytesBE_length,
    List.take_of_length_le (le_of_eq (toBytesBE_length 8 idx))]
  simp

theorem drop8_of_append (idx : Nat) (s : Bytes) :
    (toBytesBE 8 idx ++ s).drop 8 = s := by
  rw [List.drop_append_eq_append_drop, toBytesBE_length]
  simp [List.drop_eq_nil_of_le (le_of_eq (toBytesBE_length 8 idx))]

theorem ctrl_msg_ne_nil (idx : Nat) (s : Bytes) :
    toBytesBE 8 idx ++ s ≠ [] := by
  intro h
  have := congrArg List.length h
  simp [toBytesBE_length] at this

theorem pow256_eq : (256 : Nat) ^ 8 = 2 ^ 64 := by norm_num

/-- Unfolded form of `check_current_package_status` on a well-formed control
message `idx.to_bytes(8, "big") + status`. -/
theorem checkStatus_msg_eq (st : SenderState) (idx : Nat) (status : Bytes)
    (hidx : idx < 2 ^ 64) :
    checkStatus st (RecvEvent.msg (toBytesBE 8 idx ++ status)) =
      if st.current_package < idx then (resend st idx, false)
      else if idx < st.current_package ∨ status = nackBytes then (st, false)
      else
        ({ st with
            window := (if st.current_package + st.window_size < st.file_data.length
              then st.window ++ [st.current_package + st.window_size]
              else st.window).tail
            current_package := st.current_package + 1 }, true) := by
  have h256 : idx < 256 ^ 8 := by rw [pow256_eq]; exact hidx
  simp only [checkStatus, take8_of_append, drop8_of_append,
    fromBytesBE_toBytesBE 8 idx h256, if_neg (ctrl_msg_ne_nil idx status)]

/-! Claim theorems. -/

/-- C6: in every reachable sender session state the window holds at most
`window_size` packets, and the number of window packets marked as awaiting
acknowledgment never exceeds `window_size`. -/
theorem window_bound_invariant (chunks : List Bytes) (ws : Nat)
    (st : SenderState) (hr : Reachable chunks ws st) :
    st.window.length ≤ st.window_size ∧
    (st.window.filter (fun j => awaitingAt st.file_data j)).length ≤
      st.window_size := by
  obtain ⟨h1, h2, h3, h4, h5⟩ := reachable_wf chunks ws st hr
  have hlen : st.window.length ≤ st.window_size := by rw [h3, h2]; omega
  exact ⟨hlen, le_trans (List.length_filter_le _ _) hlen⟩

/-- C6 witness: the bound holds in the initial three-chunk session. -/
theorem window_bound_invariant_witness :
    exSt0.window.length ≤ exSt0.window_size ∧
    (exSt0.window.filter (fun j => awaitingAt exSt0.file_data j)).length ≤
      exSt0.window_size :=
  window_bound_invariant exChunks 2 exSt0 Reachable.init

/-- C10: whenever `resend i` can be invoked in a reachable sender state (a
receive timeout gives `i = current_package`; a control packet with a larger
index gives `i > current_package`), the window holds at least as many packets
as the slice `file_data[i : i + window_size]`, so the `popleft` performed
once per slice element never pops an empty deque, and `resend` preserves the
window's length. -/
theorem resend_slice_within_window (chunks : List Bytes) (ws : Nat)
    (st : SenderState) (hr : Reachable chunks ws st) (i : Nat)
    (hi : st.current_package ≤ i) :
    sliceLen st i ≤ st.window.length ∧
    (resend st i).window.length = st.window.length := by
  obtain ⟨h1, h2, h3, h4, h5⟩ := reachable_wf chunks ws st hr
  have hle : sliceLen st i ≤ st.window.length := by
    simp only [sliceLen, h1, h2, h3]
    omega
  refine ⟨hle, ?_⟩
  rw [resend_eq st i hle]
  simp only [List.length_append, List.length_drop, List.length_range']
  omega

/-- C10 witness: instantiated in the initial three-chunk session at the base
index. -/
theorem resend_slice_within_window_witness :
    sliceLen exSt0 0 ≤ exSt0.window.length ∧
    (resend exSt0 0).window.length = exSt0.window.length :=
  resend_slice_within_window exChunks 2 exSt0 Reachable.init 0 (by decide)

/-- C5: in every reachable sender state, a receive timeout makes the sender
treat the whole window as lost: every packet that was in the window has its
awaiting-ack flag cleared (reset to the un-sent pending state), and the
window afterwards holds exactly the slice `file_data[current_package :
current_package + window_size]`, so the whole window is retransmitted. -/
theorem timeout_resets_window (chunks : List Bytes) (ws : Nat)
    (st : SenderState) (hr : Reachable chunks ws st) :
    (∀ j ∈ st.window,
      awaitingAt ((checkStatus st RecvEvent.timeout).1).file_data j = false) ∧
    ((checkStatus st RecvEvent.timeout).1).window =
      List.range' st.current_package (sliceLen st st.current_package) := by
  obtain ⟨h1, h2, h3, h4, h5⟩ := reachable_wf chunks ws st hr
  have hslice : sliceLen st st.current_package = st.window.length := by
    simp only [sliceLen, h1, h2, h3]
  have heq := resend_eq st st.current_package (le_of_eq hslice)
  constructor
  · intro j hj
    show awaitingAt (resend st st.current_package).file_data j = false
    rw [heq]
    simp only
    rw [hslice, List.take_length, awaitingAt_clearFold]
    have : j < st.file_data.length := by rw [h1]; exact h4 j hj
    simp [hj, this]
  · show (resend st st.current_package).window = _
    rw [heq]
    simp only
    rw [hslice, List.drop_length, List.nil_append]

/-- C5 witness: instantiated in the session state `exSt1` (both window
packets awaiting ack), which a timeout fully resets. -/
theorem timeout_resets_window_witness :
    (∀ j ∈ exSt1.window,
      awaitingAt ((checkStatus exSt1 RecvEvent.timeout).1).file_data j = false) ∧
    ((checkStatus exSt1 RecvEvent.timeout).1).window =
      List.range' exSt1.current_package (sliceLen exSt1 exSt1.current_package) :=
  timeout_resets_window exChunks 2 exSt1
    (Reachable.step Reachable.init (SenderStep.transmit exSt0 2))

/-- C1 counterexample: in the reachable session state `exSt2` (base index 1,
window `[1, 2]`, packet 1 awaiting ack), handling the control packet
`ACK(0)` — whose index differs from the base index — records one failure but
leaves the window untouched: packet 1 is still awaiting ack afterwards, so
the window is not reset to pending and nothing is retransmitted. -/
theorem control_ack_below_base_no_reset_cex :
    Reachable exChunks 2 exSt2 ∧
    (checkStatus exSt2 (RecvEvent.msg (toBytesBE 8 0 ++ ackBytes))).2 = false ∧
    1 ∈ (checkStatus exSt2 (RecvEvent.msg (toBytesBE 8 0 ++ ackBytes))).1.window ∧
    awaitingAt
      (checkStatus exSt2 (RecvEvent.msg (toBytesBE 8 0 ++ ackBytes))).1.file_data
      1 = true :=
  ⟨Reachable.step
      (Reachable.step Reachable.init (SenderStep.transmit exSt0 2))
      (SenderStep.check exSt1 (RecvEvent.msg (toBytesBE 8 0 ++ ackBytes))
        (by decide)),
   by decide⟩

/-- C1 (amended): handling a received control packet
`idx.to_bytes(8) + status` in a sender state whose window satisfies the
session invariant follows the code's go-back-N discipline:
if `idx` equals the base index and the status is not `"NACK"`, the front
window packet is evicted, the base index advances by one, the packet at
index `base + window_size` (if it exists) is admitted at the window tail,
and one success is recorded; if `idx` is greater than the base index, the
window is rotated onto the slice `file_data[idx : idx + window_size]` — each
popped packet's awaiting-ack flag is cleared — and one failure is recorded;
if `idx` is below the base index, or equals it with status `"NACK"`, the
state is left completely unchanged and one failure is recorded. -/
theorem control_packet_cases (st : SenderState) (idx : Nat) (status : Bytes)
    (hw : st.window ≠ []) (hidx : idx < 2 ^ 64)
    (hlen : st.window.length =
      min st.window_size (st.file_data.length - st.current_package))
    (hmem : ∀ j ∈ st.window, j < st.file_data.length) :
    (idx = st.current_package → status ≠ nackBytes →
      (checkStatus st (RecvEvent.msg (toBytesBE 8 idx ++ status))).2 = true ∧
      (checkStatus st (RecvEvent.msg (toBytesBE 8 idx ++ status))).1.current_package
        = st.current_package + 1 ∧
      (checkStatus st (RecvEvent.msg (toBytesBE 8 idx ++ status))).1.window =
        st.window.tail ++
          (if st.current_package + st.window_size < st.file_data.length
            then [st.current_package + st.window_size] else []) ∧
      (checkStatus st (RecvEvent.msg (toBytesBE 8 idx ++ status))).1.file_data =
        st.file_data) ∧
    (st.current_package < idx →
      (checkStatus st (RecvEvent.msg (toBytesBE 8 idx ++ status))).2 = false ∧
      (checkStatus st (RecvEvent.msg (toBytesBE 8 idx ++ status))).1.current_package
        = st.current_package ∧
      (checkStatus st (RecvEvent.msg (toBytesBE 8 idx ++ status))).1.window =
        st.window.drop (sliceLen st idx) ++ List.range' idx (sliceLen st idx) ∧
      ∀ j ∈ st.window.take (sliceLen st idx),
        awaitingAt
          (checkStatus st (RecvEvent.msg (toBytesBE 8 idx ++ status))).1.file_data
          j = false) ∧
    ((idx < st.current_package ∨
        (idx = st.current_package ∧ status = nackBytes)) →
      (checkStatus st (RecvEvent.msg (toBytesBE 8 idx ++ status))).2 = false ∧
      (checkStatus st (RecvEvent.msg (toBytesBE 8 idx ++ status))).1 = st) := by
  have hre := checkStatus_msg_eq st idx status hidx
  have htailapp : ∀ (w : List Nat), w ≠ [] → ∀ x : Nat,
      (w ++ [x]).tail = w.tail ++ [x] := by
    intro w hwne x
    cases w with
    | nil => exact absurd rfl hwne
    | cons a t => simp
  refine ⟨?_, ?_, ?_⟩
  · intro h hstat
    rw [hre, if_neg (by omega), if_neg (by rw [h]; simp [hstat])]
    refine ⟨rfl, rfl, ?_, rfl⟩
    by_cases hnext : st.current_package + st.window_size < st.file_data.length
    · rw [if_pos hnext, if_pos hnext, htailapp st.window hw]
    · rw [if_neg hnext, if_neg hnext, List.append_nil]
  · intro h
    have hle : sliceLen st idx ≤ st.window.length := by
      simp only [sliceLen, hlen]
      omega
    rw [hre, if_pos h, resend_eq st idx hle]
    refine ⟨rfl, rfl, rfl, ?_⟩
    intro j hj
    simp only
    rw [awaitingAt_clearFold]
    have hjw : j ∈ st.window := List.take_subset _ _ hj
    simp [hj, hmem j hjw]
  · intro h
    have hnotgt : ¬st.current_package < idx := by omega
    have hcond : idx < st.current_package ∨ status = nackBytes := by
      rcases h with h | ⟨_, h⟩
      · exact Or.inl h
      · exact Or.inr h
    rw [hre, if_neg hnotgt, if_pos hcond]
    exact ⟨rfl, rfl⟩

/-- C1 witness: the amended theorem instantiated in the initial three-chunk
session for the control packet `ACK(1)` (index above the base index 0):
one failure is recorded and the window is rotated onto the slice starting
at index 1. -/
theorem control_packet_cases_witness :
    (checkStatus exSt0 (RecvEvent.msg (toBytesBE 8 1 ++ ackBytes))).2 = false ∧
    (checkStatus exSt0 (RecvEvent.msg (toBytesBE 8 1 ++ ackBytes))).1.window =
      exSt0.window.drop (sliceLen exSt0 1) ++ List.range' 1 (sliceLen exSt0 1) :=
  ⟨((control_packet_cases exSt0 1 ackBytes (by decide) (by decide) (by decide)
      (by decide)).2.1 (by decide)).1,
   ((control_packet_cases exSt0 1 ackBytes (by decide) (by decide) (by decide)
      (by decide)).2.1 (by decide)).2.2.1⟩

/-! Receiver-side lemmas and claims. -/

theorem ackLoop_spec (diff : Nat) : ∀ c : Nat,
    ackLoop c diff =
      (c + diff,
       (List.range diff).map (fun t => controlPacket (c + t) ackBytes)) := by
  induction diff with
  | zero => intro c; simp [ackLoop]
  | succ d ih =>
    intro c
    have hmap : (List.range (d + 1)).map (fun t => controlPacket (c + t) ackBytes) =
        controlPacket c ackBytes ::
          (List.range d).map (fun t => controlPacket (c + 1 + t) ackBytes) := by
      rw [List.range_succ_eq_map, List.map_cons, List.map_map]
      refine congrArg₂ _ (by rw [Nat.add_zero]) ?_
      refine List.map_congr_left ?_
      intro t _
      simp [Function.comp]
      congr 1
      omega
    rw [ackLoop, ih (c + 1), hmap]
    refine congrArg₂ _ (by omega) rfl

set_option maxRecDepth 20000 in
/-- C2 counterexample: receiver state `exRecv1` expects packet 1; the stale
duplicate `exDecoded0` (index 0, perfectly valid) arrives. The receiver
answers with `ACK(0)` — not `NACK(1)` as the claim requires — though the
state (buffer, byte total, expected index) is indeed left unchanged. -/
theorem stale_packet_acked_not_nacked_cex :
    exDecoded0.index ≠ exRecv1.current_package ∧
    (handleIteration exRecv1 (some exDecoded0)).2.1 =
      [controlPacket 0 ackBytes] ∧
    controlPacket exRecv1.current_package nackBytes ∉
      (handleIteration exRecv1 (some exDecoded0)).2.1 ∧
    (handleIteration exRecv1 (some exDecoded0)).1 = exRecv1 := by
  decide

/-- C2 (amended): a data packet whose index differs from the expected index,
or whose payload length differs from its length field, or whose checksum
does not match the recomputed digest, is never buffered: the receiver state
(buffer, byte total, expected index) is unchanged and the packet counts as
failed. The control reply is `NACK(expected_index)` when the index is too
high or the packet is invalid at the expected index; a stale packet with
index below the expected one is instead answered with the re-sent ACKs
`ACK(index) .. ACK(expected_index - 1)`. -/
theorem data_packet_rejection (st : ReceiverState) (d : Decoded)
    (h : d.index ≠ st.current_package ∨ d.data.length ≠ d.size ∨
      checksum d.data ≠ d.chk) :
    (handleIteration st (some d)).1 = st ∧
    (handleIteration st (some d)).2.2 = false ∧
    ((st.current_package < d.index ∨
        (d.index = st.current_package ∧
          (d.data.length ≠ d.size ∨ checksum d.data ≠ d.chk))) →
      (handleIteration st (some d)).2.1 =
        [controlPacket st.current_package nackBytes]) ∧
    (d.index < st.current_package →
      (handleIteration st (some d)).2.1 =
        (List.range (st.current_package - d.index)).map
          (fun t => controlPacket (d.index + t) ackBytes)) := by
  rcases Nat.lt_trichotomy d.index st.current_package with hlt | heq | hgt
  · have hre : checkPackage st (some d) =
        ({ st with current_package := (ackLoop d.index
            (st.current_package - d.index)).1 },
         (ackLoop d.index (st.current_package - d.index)).2, false) := by
      simp only [checkPackage, if_pos hlt]
    have hst : ({ st with current_package := (ackLoop d.index
        (st.current_package - d.index)).1 } : ReceiverState) = st := by
      rw [ackLoop_spec]
      have : d.index + (st.current_package - d.index) = st.current_package := by
        omega
      rw [this]
    refine ⟨?_, ?_, ?_, ?_⟩
    · simp [handleIteration, hre, hst]
    · simp [handleIteration, hre]
    · intro hcase
      rcases hcase with hcase | ⟨hcase, _⟩ <;> omega
    · intro _
      simp [handleIteration, hre, ackLoop_spec]
  · have hinv : d.data.length ≠ d.size ∨ checksum d.data ≠ d.chk := by
      rcases h with h | h | h
      · exact absurd heq h
      · exact Or.inl h
      · exact Or.inr h
    have hre : checkPackage st (some d) =
        (st, [controlPacket st.current_package nackBytes], false) := by
      simp only [checkPackage, if_neg (by omega : ¬d.index < st.current_package),
        if_neg (by omega : ¬st.current_package < d.index), if_pos hinv]
    exact ⟨by simp [handleIteration, hre],
      by simp [handleIteration, hre],
      fun _ => by simp [handleIteration, hre],
      fun hcase => by omega⟩
  · have hre : checkPackage st (some d) =
        (st, [controlPacket st.current_package nackBytes], false) := by
      simp only [checkPackage, if_neg (by omega : ¬d.index < st.current_package),
        if_pos hgt]
    exact ⟨by simp [handleIteration, hre],
      by simp [handleIteration, hre],
      fun _ => by simp [handleIteration, hre],
      fun hcase => by omega⟩

/-- C2 witness: a packet with index 1 arriving while index 0 is expected is
rejected with `NACK(0)` and the state is unchanged. -/
theorem data_packet_rejection_witness :
    (handleIteration exRecv0 (some ⟨1, 1, checksum [42], [42]⟩)).1 = exRecv0 ∧
    (handleIteration exRecv0 (some ⟨1, 1, checksum [42], [42]⟩)).2.1 =
      [controlPacket exRecv0.current_package nackBytes] :=
  ⟨(data_packet_rejection exRecv0 ⟨1, 1, checksum [42], [42]⟩
      (Or.inl (by decide))).1,
   (data_packet_rejection exRecv0 ⟨1, 1, checksum [42], [42]⟩
      (Or.inl (by decide))).2.2.1 (Or.inl (by decide))⟩

/-- C3: a data packet carrying exactly the expected index, a length field
equal to its payload length and a matching checksum is accepted: the payload
is appended to the buffer, the byte total grows by the packet's size field,
the expected index advances by one, and the single control reply is an ACK
carrying the accepted packet's index (the expected index before the
increment, i.e. `expected_index - 1` after it). -/
theorem valid_packet_accepted (st : ReceiverState) (d : Decoded)
    (h1 : d.index = st.current_package) (h2 : d.data.length = d.size)
    (h3 : checksum d.data = d.chk) :
    handleIteration st (some d) =
      ({ buffer := st.buffer ++ [d.data]
         buffer_size := st.buffer_size + d.size
         current_package := st.current_package + 1 },
       [controlPacket st.current_package ackBytes], true) := by
  have hre : checkPackage st (some d) = (st, [], true) := by
    simp only [checkPackage, if_neg (by omega : ¬d.index < st.current_package),
      if_neg (by omega : ¬st.current_package < d.index),
      if_neg (by simp [h2, h3] : ¬(d.data.length ≠ d.size ∨
        checksum d.data ≠ d.chk))]
  simp only [handleIteration, hre, if_pos, List.nil_append]

set_option maxRecDepth 20000 in
/-- C3 witness: the valid packet `exDecoded0` is accepted by the fresh
receiver, acknowledged as `ACK(0)`, and buffered. -/
theorem valid_packet_accepted_witness :
    handleIteration exRecv0 (some exDecoded0) =
      ({ buffer := exRecv0.buffer ++ [exDecoded0.data]
         buffer_size := exRecv0.buffer_size + exDecoded0.size
         current_package := exRecv0.current_package + 1 },
       [controlPacket exRecv0.current_package ackBytes], true) :=
  valid_packet_accepted exRecv0 exDecoded0 rfl (by decide) rfl

/-! Codec claims: data-packet round trip (C4) and control packets (C9). -/

theorem drop_append_of_long (l r : Bytes) (n : Nat) (h : l.length ≤ n) :
    (l ++ r).drop n = r.drop (n - l.length) := by
  rw [List.drop_append_eq_append_drop, List.drop_eq_nil_of_le h,
    List.nil_append]

theorem take_all_append (l r : Bytes) (n : Nat) (h : l.length = n) :
    (l ++ r).take n = l := by
  rw [List.take_append_eq_append_take, List.take_of_length_le (le_of_eq h)]
  simp [h]

theorem createPacketContent_assoc (i : Nat) (P : Bytes) :
    createPacketContent i P =
      toBytesBE 8 i ++ (toBytesBE 8 P.length ++ (checksum P ++ P)) := by
  unfold createPacketContent
  rw [List.take_of_length_le (le_of_eq (checksum_length P))]
  simp [List.append_assoc]

theorem createPacketContent_length (i : Nat) (P : Bytes) :
    (createPacketContent i P).length = 48 + P.length := by
  rw [createPacketContent_assoc]
  simp [toBytesBE_length, checksum_length]
  omega

/-- C4: for every sequence index `i` (an unsigned 64-bit value) and payload
`P` with `0 < len(P) <= packet_size` (and a representable `packet_size`),
decoding the wire bytes produced by the sender's `create_packet` yields the
index `i`, the length `len(P)`, the 32-character hexadecimal digest of `P`
and the payload `P` itself; the receiver's validation (`check_package` at
the expected index) accepts the packet with no length or checksum mismatch. -/
theorem data_packet_roundtrip (ps i : Nat) (P : Bytes)
    (hidx : i < 2 ^ 64) (hpos : 0 < P.length) (hle : P.length ≤ ps)
    (hps : ps < 2 ^ 64) :
    receivePacket ps (createPacketContent i P) =
      some ⟨i, P.length, checksum P, P⟩ ∧
    (checksum P).length = 32 ∧
    (∀ st : ReceiverState, st.current_package = i →
      checkPackage st (receivePacket ps (createPacketContent i P)) =
        (st, [], true)) := by
  have h256i : i < 256 ^ 8 := by rw [pow256_eq]; exact hidx
  have h256p : P.length < 256 ^ 8 := by rw [pow256_eq]; omega
  have htake : (createPacketContent i P).take (8 + 8 + 32 + ps) =
      createPacketContent i P :=
    List.take_of_length_le (by rw [createPacketContent_length]; omega)
  have hne : ¬createPacketContent i P = [] := by
    intro h
    have := congrArg List.length h
    rw [createPacketContent_length] at this
    simp at this
  have hd8 : (createPacketContent i P).drop 8 =
      toBytesBE 8 P.length ++ (checksum P ++ P) := by
    rw [createPacketContent_assoc, drop8_of_append]
  have hdec : receivePacket ps (createPacketContent i P) =
      some ⟨i, P.length, checksum P, P⟩ := by
    unfold receivePacket
    rw [htake, if_neg hne]
    refine congrArg some ?_
    refine Decoded.mk.injEq _ _ _ _ _ _ _ _ ▸ ⟨?_, ?_, ?_, ?_⟩
    · rw [createPacketContent_assoc, take8_of_append,
        fromBytesBE_toBytesBE 8 i h256i]
    · rw [hd8, take8_of_append, fromBytesBE_toBytesBE 8 P.length h256p]
    · rw [createPacketContent_assoc,
        drop_append_of_long _ _ 16 (by simp [toBytesBE_length]),
        toBytesBE_length,
        drop_append_of_long _ _ (16 - 8) (by simp [toBytesBE_length]),
        toBytesBE_length,
        show (16 - 8 - 8 : Nat) = 0 from rfl, List.drop_zero]
      exact take_all_append _ _ 32 (checksum_length P)
    · rw [createPacketContent_assoc,
        drop_append_of_long _ _ 48 (by simp [toBytesBE_length]),
        toBytesBE_length,
        drop_append_of_long _ _ (48 - 8) (by simp [toBytesBE_length]),
        toBytesBE_length,
        drop_append_of_long _ _ (48 - 8 - 8) (by simp [checksum_length]),
        checksum_length,
        show (48 - 8 - 8 - 32 : Nat) = 0 from rfl, List.drop_zero]
  refine ⟨hdec, checksum_length P, ?_⟩
  intro st hst
  rw [hdec]
  simp only [checkPackage, hst]
  rw [if_neg (by omega), if_neg (by omega), if_neg (by simp)]

/-- C4 witness: round trip with `packet_size = 500`, index 3 and payload
`[42]`. -/
theorem data_packet_roundtrip_witness :
    receivePacket 500 (createPacketContent 3 [42]) =
      some ⟨3, 1, checksum [42], [42]⟩ ∧
    (checksum [42]).length = 32 :=
  ⟨(data_packet_roundtrip 500 3 [42] (by norm_num) (by decide) (by decide)
      (by norm_num)).1,
   (data_packet_roundtrip 500 3 [42] (by norm_num) (by decide) (by decide)
      (by norm_num)).2.1⟩

/-- C9 counterexample: the status field of the receiver's NACK control packet
occupies 4 ASCII bytes (`"NACK"`), not 3 as the claim states, so the NACK
packet is 12 bytes long; the sender's decoder still recovers the index from
the first 8 bytes and the status from the remainder. -/
theorem nack_status_four_bytes_cex :
    (controlPacket 5 nackBytes).length = 12 ∧
    ((controlPacket 5 nackBytes).drop 8).length = 4 ∧
    nackBytes.length ≠ 3 ∧
    decodeControl (controlPacket 5 nackBytes) = (5, nackBytes) := by
  decide

/-- C9 (amended): every encoded control packet consists of an 8-byte
big-endian sequence index followed by an ASCII status field — 3 bytes
(`"ACK"`) for an acknowledgment or 4 bytes (`"NACK"`) for a negative one —
and the sender's decoder recovers exactly that index from the first 8 bytes
and that status from the remaining bytes. -/
theorem control_packet_roundtrip (i : Nat) (status : Bytes)
    (hidx : i < 2 ^ 64) (hstatus : status = ackBytes ∨ status = nackBytes) :
    decodeControl (controlPacket i status) = (i, status) ∧
    (controlPacket i status).length = 8 + status.length ∧
    (status = ackBytes → status.length = 3) ∧
    (status = nackBytes → status.length = 4) := by
  have h256 : i < 256 ^ 8 := by rw [pow256_eq]; exact hidx
  refine ⟨?_, ?_, ?_, ?_⟩
  · unfold decodeControl controlPacket
    rw [take8_of_append, drop8_of_append, fromBytesBE_toBytesBE 8 i h256]
  · simp [controlPacket, toBytesBE_length]
  · intro h; rw [h]; rfl
  · intro h; rw [h]; rfl

/-- C9 witness: round trip of `ACK(7)`. -/
theorem control_packet_roundtrip_witness :
    decodeControl (controlPacket 7 ackBytes) = (7, ackBytes) ∧
    (controlPacket 7 ackBytes).length = 8 + ackBytes.length :=
  ⟨(control_packet_roundtrip 7 ackBytes (by norm_num) (Or.inl rfl)).1,
   (control_packet_roundtrip 7 ackBytes (by norm_num) (Or.inl rfl)).2.1⟩

/-- C7: the receiver's receive loop returns a flushed result exactly when the
total bytes accepted reach or exceed the announced file size: whenever the
loop completes, `file_size ≤ buffer_size` holds and the flushed output is
the joined buffer (never before completion is anything flushed), and as soon
as `file_size ≤ buffer_size` holds the loop stops immediately without
consuming further packets. -/
theorem receive_loop_completion (file_size : Nat) (st : ReceiverState)
    (pkts : List (Option Decoded)) :
    (∀ st' out, receiveLoop file_size st pkts = some (st', out) →
      file_size ≤ st'.buffer_size ∧ out = st'.buffer.flatten) ∧
    (file_size ≤ st.buffer_size →
      receiveLoop file_size st pkts = some (st, st.buffer.flatten)) := by
  induction pkts generalizing st with
  | nil =>
    refine ⟨?_, ?_⟩
    · intro st' out h
      rw [receiveLoop] at h
      by_cases hc : file_size ≤ st.buffer_size
      · rw [if_pos hc] at h
        injection h with h'
        cases h'
        exact ⟨hc, rfl⟩
      · rw [if_neg hc] at h
        exact absurd h (by simp)
    · intro hc
      rw [receiveLoop, if_pos hc]
  | cons p rest ih =>
    refine ⟨?_, ?_⟩
    · intro st' out h
      rw [receiveLoop] at h
      by_cases hc : file_size ≤ st.buffer_size
      · rw [if_pos hc] at h
        injection h with h'
        cases h'
        exact ⟨hc, rfl⟩
      · rw [if_neg hc] at h
        exact (ih ((handleIteration st p).1)).1 st' out h
    · intro hc
      rw [receiveLoop, if_pos hc]

/-- C7 witness: with file size 1, the fresh receiver state does not complete
on an empty script, and after accepting one 1-byte packet the loop completes
immediately with the flushed payload. -/
theorem receive_loop_completion_witness :
    (∀ st' out, receiveLoop 1 exRecv0 [] = some (st', out) →
      1 ≤ st'.buffer_size ∧ out = st'.buffer.flatten) ∧
    (1 ≤ exRecv1.buffer_size →
      receiveLoop 1 exRecv1 [] = some (exRecv1, exRecv1.buffer.flatten)) :=
  ⟨(receive_loop_completion 1 exRecv0 []).1,
   (receive_loop_completion 1 exRecv1 []).2⟩

/-! Absence of an end-of-stream sentinel in the sender's output (C8). -/

theorem hexChar_pos (v : Nat) : 0 < hexChar v := by
  unfold hexChar
  split_ifs <;> omega

theorem checksum_cons (P : Bytes) : ∃ b rest, checksum P = hexChar b :: rest := by
  obtain ⟨x, l, hxl⟩ : ∃ x l, md5Digest P = x :: l := ⟨_, _, rfl⟩
  unfold checksum
  rw [hxl]
  exact ⟨x / 16, _, rfl⟩

theorem getD_append_skip (l r : Bytes) (n : Nat) (h : l.length ≤ n) :
    (l ++ r).getD n 0 = r.getD (n - l.length) 0 := by
  induction l generalizing n with
  | nil => simp
  | cons a t ih =>
    cases n with
    | zero => simp at h
    | succ n =>
      rw [List.cons_append, List.getD_cons_succ, ih n (by simpa using h)]
      simp [Nat.succ_sub_succ]

/-- Byte 16 of every encoded data packet is the first ASCII character of the
checksum, hence nonzero: no `create_packet` output is an all-zero packet. -/
theorem createPacketContent_getD16_pos (i : Nat) (P : Bytes) :
    0 < (createPacketContent i P).getD 16 0 := by
  obtain ⟨b, rest, hcs⟩ := checksum_cons P
  rw [createPacketContent_assoc]
  rw [getD_append_skip _ _ 16 (by simp [toBytesBE_length]), toBytesBE_length,
    getD_append_skip _ _ (16 - 8) (by simp [toBytesBE_length]), toBytesBE_length,
    show (16 - 8 - 8 : Nat) = 0 from rfl, hcs]
  exact hexChar_pos b

theorem getD_replicate_zero (L n : Nat) :
    (List.replicate L (0 : Nat)).getD n 0 = 0 := by
  induction L generalizing n with
  | zero => cases n <;> rfl
  | succ L ih =>
    cases n with
    | zero => rfl
    | succ n => exact ih n

theorem mem_pendingSends (st : SenderState) (k : Nat) (o : Bytes)
    (ho : o ∈ pendingSends st k) : ∃ j ∈ st.window, o = contentAt st.file_data j := by
  unfold pendingSends at ho
  obtain ⟨j, hj, rfl⟩ := List.mem_map.1 ho
  exact ⟨j, List.take_subset _ _ (List.mem_of_mem_filter hj), rfl⟩

/-- In every reachable sender state, every byte string the send loop ever
writes to the socket is an encoded data packet (byte 16 nonzero), and the
loop only completes once the window is empty. -/
theorem senderLoop_no_sentinel (chunks : List Bytes) (ws : Nat)
    (st : SenderState) (hr : Reachable chunks ws st)
    (script : List (Nat × RecvEvent)) :
    (∀ o ∈ (senderLoop st script).1, 0 < o.getD 16 0) ∧
    (∀ fin, (senderLoop st script).2 = some fin → fin.window = []) := by
  induction script generalizing st with
  | nil =>
    refine ⟨by simp [senderLoop], ?_⟩
    intro fin hfin
    rw [senderLoop] at hfin
    by_cases hwin : st.window = []
    · rw [if_pos hwin] at hfin
      injection hfin with h'
      rw [← h']
      exact hwin
    · rw [if_neg hwin] at hfin
      exact absurd hfin (by simp)
  | cons a rest ih =>
    rw [senderLoop]
    by_cases hwin : st.window = []
    · rw [if_pos hwin]
      refine ⟨by simp, ?_⟩
      intro fin hfin
      injection hfin with h'
      rw [← h']
      exact hwin
    · rw [if_neg hwin]
      simp only
      obtain ⟨h1, h2, h3, h4, h5⟩ := reachable_wf chunks ws st hr
      have hr2 : Reachable chunks ws
          ((checkStatus (transmitStep st a.1) a.2).1) :=
        Reachable.step (Reachable.step hr (SenderStep.transmit st a.1))
          (SenderStep.check (transmitStep st a.1) a.2 (by simpa [transmitStep]
            using hwin))
      obtain ⟨ihout, ihfin⟩ := ih _ hr2
      refine ⟨?_, ihfin⟩
      intro o ho
      rcases List.mem_append.1 ho with ho | ho
      · obtain ⟨j, hjw, rfl⟩ := mem_pendingSends st a.1 o ho
        rw [h5 j]
        obtain ⟨P, hP⟩ : ∃ P,
            contentAt (readFile chunks ws).file_data j = createPacketContent j P := by
          have hjlen : j < chunks.length := h4 j hjw
          unfold contentAt readFile
          simp only
          have hmap : (chunks.enum.map (fun p => createPacket p.1 p.2)).get? j =
              (chunks.enum.get? j).map (fun p => createPacket p.1 p.2) :=
            List.get?_map _ _ _
          have henum : chunks.enum.get? j = (chunks.get? j).map (Prod.mk j) := by
            simp [List.get?_enum]
          have hget : chunks.get? j = some (chunks.get ⟨j, hjlen⟩) :=
            List.get?_eq_get hjlen
          rw [hmap, henum, hget]
          exact ⟨chunks.get ⟨j, hjlen⟩, rfl⟩
        rw [hP]
        exact createPacketContent_getD16_pos j P
      · exact ihout o ho

set_option maxRecDepth 20000 in
/-- C8 counterexample: `exRun` is a complete two-packet sender session (the
loop exits with the file fully acknowledged), yet no datagram it ever sends
is an all-zero packet of any size — the sender transmits no end-of-stream
sentinel before completing. -/
theorem no_sentinel_in_complete_run_cex :
    exRun.2.isSome = true ∧
    exRun.1.length = 2 ∧
    ∀ o ∈ exRun.1, ∀ L : Nat, o ≠ List.replicate L 0 := by
  have hpos : ∀ o ∈ exRun.1, o.getD 16 0 ≠ 0 := by decide
  refine ⟨by decide, by decide, ?_⟩
  intro o ho L heq
  have hne := hpos o ho
  rw [heq, getD_replicate_zero] at hne
  exact hne rfl

/-- C8 (amended): when the sender has read the entire file and its window
empties, the send loop simply exits and the session completes; no
end-of-stream sentinel is ever transmitted — every datagram the sender
writes during the session is an encoded data packet whose byte 16 (the first
checksum character) is nonzero, so none is all-zero. The all-zero
`EMPTY_PACKET` sentinel exists only in the Speedtest component. -/
theorem sender_completes_without_sentinel (chunks : List Bytes) (ws : Nat)
    (script : List (Nat × RecvEvent)) :
    (∀ o ∈ (senderLoop (readFile chunks ws) script).1,
      ∀ L : Nat, o ≠ List.replicate L 0) ∧
    (∀ fin, (senderLoop (readFile chunks ws) script).2 = some fin →
      fin.window = []) := by
  obtain ⟨hout, hfin⟩ :=
    senderLoop_no_sentinel chunks ws (readFile chunks ws) Reachable.init script
  refine ⟨?_, hfin⟩
  intro o ho L heq
  have hne := hout o ho
  rw [heq, getD_replicate_zero] at hne
  omega

/-- C8 witness for the amended theorem: instantiated on the concrete
two-chunk session script of `exRun`. -/
theorem sender_completes_without_sentinel_witness :
    (∀ o ∈ (senderLoop (readFile [[5], [6]] 1)
        [(1, RecvEvent.msg (toBytesBE 8 0 ++ ackBytes)),
         (1, RecvEvent.msg (toBytesBE 8 1 ++ ackBytes))]).1,
      ∀ L : Nat, o ≠ List.replicate L 0) ∧
    (∀ fin, (senderLoop (readFile [[5], [6]] 1)
        [(1, RecvEvent.msg (toBytesBE 8 0 ++ ackBytes)),
         (1, RecvEvent.msg (toBytesBE 8 1 ++ ackBytes))]).2 = some fin →
      fin.window = []) :=
  sender_completes_without_sentinel [[5], [6]] 1
    [(1, RecvEvent.msg (toBytesBE 8 0 ++ ackBytes)),
     (1, RecvEvent.msg (toBytesBE 8 1 ++ ackBytes))]

end Redes
